import Mathlib

/-!
Verification of the Solara proxy core (src/functions/server.js, src/unnamed/part_000,
src/unnamed/part_001) against its natural-language specification.

The repository contains three near-duplicate implementations of the same proxy:
an Express server (src/functions/server.js), a Pages-function / TypeScript variant
(src/unnamed/part_000), and a second Express server with a retrying fetch client
(src/unnamed/part_001, after an unrelated Dockerfile).  Where the variants differ
both are embedded, with a suffix marking the variant: plain names or no suffix for
the shared logic, and an explicit TS suffix for the Pages-function variant.

Strings model JavaScript strings; header collections are association lists of
name/value pairs whose lookup and update functions mirror the exact JavaScript
semantics used at each site (plain-object assignment, Fetch Headers, Express
req.get / res.set, URLSearchParams.set).
-/

namespace Solara

/-! ## JavaScript string and collection primitives -/

/-- Character-wise ASCII lowercasing of a string, modeling the effect of the
JavaScript case-insensitive comparisons used by the code (regex i flag and
case-insensitive header lookups); all names compared by the code are ASCII. -/
def lowerStr (s : String) : String :=
  ⟨s.data.map Char.toLower⟩

/-- Model of the JavaScript idiom x || d for a possibly-absent string x:
the default d is used when x is undefined/null or the empty string. -/
def jsOr (x : Option String) (d : String) : String :=
  match x with
  | none => d
  | some s => if s = "" then d else s

/-- Truthiness of a possibly-absent JavaScript string: false for undefined/null
and for the empty string. -/
def strTruthy (x : Option String) : Bool :=
  match x with
  | none => false
  | some s => s ≠ ""

/-- A header or query-parameter collection: ordered name/value pairs. -/
abbrev HeaderMap := List (String × String)

/-- Case-insensitive first-match lookup, modeling Express req.get, node-fetch
Headers.get and Fetch request.headers.get. -/
def reqGet (hs : HeaderMap) (k : String) : Option String :=
  (hs.find? fun p => lowerStr p.1 = lowerStr k).map Prod.snd

/-- Exact-key presence test on a JavaScript plain object. -/
def objHasKey (hs : HeaderMap) (k : String) : Bool :=
  hs.any fun p => p.1 = k

/-- Exact-key lookup on a JavaScript plain object (obj[key]). -/
def objGet (hs : HeaderMap) (k : String) : Option String :=
  (hs.find? fun p => p.1 = k).map Prod.snd

/-- Assignment obj[key] = value on a JavaScript plain object: replaces the
value of an existing exact key in place, otherwise appends the pair. -/
def objSet (hs : HeaderMap) (k v : String) : HeaderMap :=
  if objHasKey hs k then hs.map fun p => if p.1 = k then (k, v) else p
  else hs ++ [(k, v)]

/-- Express res.set(field, value): replaces the value of a case-insensitively
matching header in place, otherwise appends the pair. -/
def resSet (hs : HeaderMap) (k v : String) : HeaderMap :=
  if hs.any (fun p => lowerStr p.1 = lowerStr k) then
    hs.map fun p => if lowerStr p.1 = lowerStr k then (k, v) else p
  else hs ++ [(k, v)]

/-- Replay of Object.entries(headers).forEach((k, v) => res.set(k, v)) onto an
initially header-less Express response. -/
def applyResSet (hs : HeaderMap) : HeaderMap :=
  hs.foldl (fun acc kv => resSet acc kv.1 kv.2) []

/-- Value of the last case-insensitively matching entry of a list, i.e. the
value a case-insensitive store ends up with after replaying the list. -/
def ciGetLast : HeaderMap → String → Option String
  | [], _ => none
  | kv :: t, x =>
    match ciGetLast t x with
    | some v => some v
    | none => if lowerStr kv.1 = lowerStr x then some kv.2 else none

/-- Fetch Headers.has: names are case-insensitive (stored lowercased). -/
def headersHas (hs : HeaderMap) (k : String) : Bool :=
  hs.any fun p => p.1 = lowerStr k

/-- Fetch Headers.set: the name is normalized to lowercase and an existing
entry is replaced. -/
def headersSet (hs : HeaderMap) (k v : String) : HeaderMap :=
  objSet hs (lowerStr k) v

/-! ## Host allow-list validator

Source (identical in all three variants):

  const KUWO_HOST_PATTERN = /(^|\.)kuwo\.cn$/i;
  function isAllowedKuwoHost(hostname) {
    if (!hostname) return false;
    return KUWO_HOST_PATTERN.test(hostname);
  }

The regex, anchored at the end of the string, matches exactly when the
lowercased hostname is "kuwo.cn" (alternative with the start anchor) or ends
with ".kuwo.cn" (alternative with a literal dot); the i flag is modeled by
ASCII lowercasing both sides. -/

/-- Test of the regex (^|\.)kuwo\.cn$ with the i flag against a string. -/
def kuwoHostPatternTest (h : String) : Bool :=
  (lowerStr h == "kuwo.cn") || List.isSuffixOf ('.' :: "kuwo.cn".data) (lowerStr h).data

/-- Embedding of isAllowedKuwoHost: empty hostnames are falsy and rejected,
otherwise the allow-list regex decides. -/
def isAllowedKuwoHost (h : String) : Bool :=
  if h = "" then false else kuwoHostPatternTest h

/-- Specification-side predicate for C1, following the spec's words: the
hostname equals the trusted domain kuwo.cn or is a dot-separated subdomain of
it, compared case-insensitively. -/
def specAllowedHost (h : String) : Prop :=
  lowerStr h = "kuwo.cn" ∨ ∃ s : List Char, (lowerStr h).data = s ++ '.' :: "kuwo.cn".data

/-! ## Header sanitizer

Express variants (src/functions/server.js lines 38-60, src/unnamed/part_001
lines 126-148): a plain object is seeded with the two fixed headers, then every
upstream entry whose lowercased name is on the safe list is copied with its
original casing by plain-object assignment.

Pages-function variant (src/unnamed/part_000 lines 7-21): a Fetch Headers
object is filled from the optional init, a Cache-Control default is added when
absent, and Access-Control-Allow-Origin is set last. -/

def SAFE_RESPONSE_HEADERS : List String :=
  ["content-type", "cache-control", "accept-ranges", "content-length",
   "content-range", "etag", "last-modified", "expires"]

/-- One iteration of the Express sanitizer loop over upstream entries. -/
def corsStep (acc : HeaderMap) (kv : String × String) : HeaderMap :=
  if SAFE_RESPONSE_HEADERS.contains (lowerStr kv.1) then objSet acc kv.1 kv.2 else acc

/-- Embedding of the Express createCorsHeaders: the argument is the mapping
Object.fromEntries(response.headers.entries()). -/
def createCorsHeaders (upstreamHeaders : HeaderMap) : HeaderMap :=
  upstreamHeaders.foldl corsStep
    [("Access-Control-Allow-Origin", "*"), ("Cache-Control", "no-store")]

/-- One iteration of the Pages-function sanitizer loop over init.entries(). -/
def corsStepTS (acc : HeaderMap) (kv : String × String) : HeaderMap :=
  if SAFE_RESPONSE_HEADERS.contains (lowerStr kv.1) then headersSet acc kv.1 kv.2 else acc

/-- Embedding of the Pages-function createCorsHeaders (init optional). -/
def createCorsHeadersTS (init? : Option HeaderMap) : HeaderMap :=
  let hs := match init? with
    | some entries => entries.foldl corsStepTS []
    | none => ([] : HeaderMap)
  let hs2 := if headersHas hs "Cache-Control" then hs else headersSet hs "Cache-Control" "no-store"
  headersSet hs2 "Access-Control-Allow-Origin" "*"

/-- Names the sanitizer is allowed to emit: the fixed safe list union the two
always-present headers, compared case-insensitively. -/
def allowedOutName (k : String) : Bool :=
  SAFE_RESPONSE_HEADERS.contains (lowerStr k)
    || (lowerStr k == "access-control-allow-origin")
    || (lowerStr k == "cache-control")

/-! ## URL validator / normalizer

Source (identical in all three variants):

  function normalizeKuwoUrl(rawUrl) {
    try {
      const parsed = new URL(rawUrl);
      if (!isAllowedKuwoHost(parsed.hostname)) return null;
      if (parsed.protocol !== "http:" && parsed.protocol !== "https:") return null;
      parsed.protocol = "http:";
      return parsed;
    } catch { return null; }
  }

The WHATWG URL constructor is external to the repository; it is modeled by its
outcome: the input to the embedding is the parse result, where none stands for
the TypeError thrown on a string that does not parse as an absolute URL (the
single-argument constructor has no base, so relative references throw and are
never resolved). -/

/-- Result of new URL(rawUrl): protocol (with trailing colon), hostname, and
the remaining components, which the code never inspects. -/
structure JSURL where
  protocol : String
  hostname : String
  rest : String
deriving DecidableEq, Repr

/-- Embedding of normalizeKuwoUrl over the parse outcome of new URL(rawUrl). -/
def normalizeKuwoUrl (parsed? : Option JSURL) : Option JSURL :=
  match parsed? with
  | none => none
  | some parsed =>
    if ¬ isAllowedKuwoHost parsed.hostname then none
    else if parsed.protocol ≠ "http:" ∧ parsed.protocol ≠ "https:" then none
    else some { parsed with protocol := "http:" }

/-! ## Retrying fetch client

Parametric source (src/unnamed/part_001 lines 81-123):

  async function fetchWithRetry(url, options = {}, maxRetries = 3, retryDelay = 1000) {
    let lastError;
    for (let attempt = 1; attempt <= maxRetries; attempt++) {
      try {
        const response = await fetch(url, options);
        if (response.status >= 500) {
          if (attempt < maxRetries) {
            const delay = retryDelay * Math.pow(2, attempt - 1);
            await sleep(delay); continue;
          }
        }
        return response;
      } catch (error) {
        lastError = error;
        if (attempt < maxRetries) {
          const delay = retryDelay * Math.pow(2, attempt - 1);
          await sleep(delay);
        }
      }
    }
    throw lastError;
  }

The fixed-constant variant (src/unnamed/part_000 lines 23-67) is the same
state machine with a zero-based loop index, maxRetries = MAX_RETRIES = 3 and
retryDelay = RETRY_DELAY_BASE = 1000; its per-attempt 15-second abort counts
as a thrown error, i.e. an err outcome of the oracle.

The network is modeled by an oracle giving the outcome of each one-based
attempt.  The loop is embedded structurally on the number of remaining
attempts, with the invariant attempt + remaining = maxRetries + 1, so the
JavaScript guard attempt < maxRetries is exactly 0 < remaining at the point it
is tested.  The embedding also records the trace: how many attempts were made
and which backoff delays were slept between them. -/

/-- Upstream HTTP response: status and the materialized header entries
(as produced by response.headers.entries(), which node-fetch and the Fetch API
yield with lowercased names). -/
structure UpstreamResponse where
  status : Nat
  headers : HeaderMap
deriving DecidableEq, Repr

/-- Outcome of one fetch attempt: a response, or a thrown transport/timeout
error with its message. -/
inductive FetchOutcome
  | resp (r : UpstreamResponse)
  | err (e : String)

/-- Return or throw of fetchWithRetry: a returned response, or a thrown error
message, where error none models JavaScript throwing the undefined lastError
when maxRetries = 0. -/
inductive RetryOutcome
  | ok (r : UpstreamResponse)
  | error (e : Option String)
deriving DecidableEq, Repr

/-- Result of a fetchWithRetry call: the returned response or thrown error,
the number of attempts performed, and the backoff delays slept in order. -/
structure RetryResult where
  result : RetryOutcome
  attempts : Nat
  delays : List Nat
deriving DecidableEq, Repr

/-- Loop of fetchWithRetry; attempt is the one-based loop index and remaining
the number of loop iterations still permitted, including this one. -/
def fetchWithRetryGo (oracle : Nat → FetchOutcome) (retryDelay : Nat) :
    Nat → Nat → Option String → List Nat → RetryResult
  | 0, attempt, lastError, delays => ⟨.error lastError, attempt - 1, delays⟩
  | remaining + 1, attempt, lastError, delays =>
    match oracle attempt with
    | .resp r =>
      if 500 ≤ r.status ∧ 0 < remaining then
        fetchWithRetryGo oracle retryDelay remaining (attempt + 1) lastError
          (delays ++ [retryDelay * 2 ^ (attempt - 1)])
      else ⟨.ok r, attempt, delays⟩
    | .err e =>
      if 0 < remaining then
        fetchWithRetryGo oracle retryDelay remaining (attempt + 1) (some e)
          (delays ++ [retryDelay * 2 ^ (attempt - 1)])
      else ⟨.error (some e), attempt, delays⟩

/-- Embedding of fetchWithRetry(url, options, maxRetries, retryDelay), with
the network abstracted by the attempt oracle. -/
def fetchWithRetry (oracle : Nat → FetchOutcome) (maxRetries retryDelay : Nat) : RetryResult :=
  fetchWithRetryGo oracle retryDelay maxRetries 1 none []

def MAX_RETRIES : Nat := 3

def RETRY_DELAY_BASE : Nat := 1000

/-- Fixed-constant fetchWithRetry of the Pages-function variant. -/
def fetchWithRetryTS (oracle : Nat → FetchOutcome) : RetryResult :=
  fetchWithRetry oracle MAX_RETRIES RETRY_DELAY_BASE

/-- An attempt outcome on which the retry loop does not return: a response
with status at least 500, or a thrown transport/timeout error.  A run reaches
attempt j exactly when attempts 1 to j-1 were all retryable. -/
def retryable (oracle : Nat → FetchOutcome) (k : Nat) : Prop :=
  (∃ r : UpstreamResponse, oracle k = .resp r ∧ 500 ≤ r.status) ∨
  (∃ e : String, oracle k = .err e)

/-! ## Audio proxy handlers

Express variants (src/functions/server.js lines 63-102, src/unnamed/part_001
lines 151-190): validate the target, fetch with User-Agent / Accept / Range
inherited with || defaults, replace the body with a short text for non-2xx
statuses, build the sanitized headers plus an audio/mpeg Content-Type default
and, when the inbound Range was truthy, Accept-Ranges and Content-Range, then
replay them through res.set.  server.js calls bare fetch, which is the
maxRetries = 1 instance of part_001's fetchWithRetry call.

Pages-function variant (src/unnamed/part_000 lines 102-137): validate, fetch
with User-Agent / fixed Referer / optional Range and the inbound method, and
relay status, statusText and body with the sanitized headers.

A handler result is a ServerResponse paired with the number of upstream fetch
attempts performed (0 when validation fails before any fetch). -/

/-- Body of a response to the caller: the upstream body streamed through, or a
synthetic text body. -/
inductive BodySrc
  | upstreamBody
  | text (s : String)
deriving DecidableEq, Repr

/-- Response the proxy sends to its caller. -/
structure ServerResponse where
  status : Nat
  headers : HeaderMap
  body : BodySrc
deriving DecidableEq, Repr

/-- Outbound header mapping of the Express audio path (server.js lines 70-76,
part_001 lines 158-164), built from the inbound header map via req.get. -/
def buildAudioHeadersExpress (reqHeaders : HeaderMap) : HeaderMap :=
  [("User-Agent", jsOr (reqGet reqHeaders "User-Agent") "Mozilla/5.0"),
   ("Accept", jsOr (reqGet reqHeaders "Accept") "*/*"),
   ("Range", jsOr (reqGet reqHeaders "Range") "")]

/-- Upstream request descriptor of the Pages-function audio path: method and
outbound header mapping. -/
structure UpstreamRequestTS where
  method : String
  headers : HeaderMap
deriving DecidableEq, Repr

/-- Outbound request of the Pages-function audio path (part_000 lines
108-119): inbound method, User-Agent with a nullish default, a fixed Referer,
and the inbound Range added only when truthy. -/
def buildAudioRequestTS (method : String) (reqHeaders : HeaderMap) : UpstreamRequestTS :=
  let base := [("User-Agent", (reqGet reqHeaders "User-Agent").getD "Mozilla/5.0"),
               ("Referer", "https://www.kuwo.cn/")]
  match reqGet reqHeaders "Range" with
  | some r => if r = "" then ⟨method, base⟩ else ⟨method, base ++ [("Range", r)]⟩
  | none => ⟨method, base⟩

/-- Embedding of the Express proxyKuwoAudio.  server.js is the maxRetries = 1,
retryDelay irrelevant instance; part_001 passes RETRY_CONFIG.audioMaxRetries
and audioRetryDelay. -/
def proxyKuwoAudio_express (target : Option JSURL) (reqHeaders : HeaderMap)
    (oracle : Nat → FetchOutcome) (maxRetries retryDelay : Nat) : ServerResponse × Nat :=
  match normalizeKuwoUrl target with
  | none => (⟨400, [], .text "Invalid Kuwo URL"⟩, 0)
  | some _ =>
    let rr := fetchWithRetry oracle maxRetries retryDelay
    match rr.result with
    | .error _ => (⟨500, [], .text "Proxy error"⟩, rr.attempts)
    | .ok resp =>
      if resp.status < 200 ∨ 300 ≤ resp.status then
        (⟨resp.status, [], .text "Failed to fetch audio"⟩, rr.attempts)
      else
        let hs0 := createCorsHeaders resp.headers
        let hs1 := if strTruthy (objGet hs0 "Content-Type") then hs0
          else objSet hs0 "Content-Type" "audio/mpeg"
        let hs2 := if strTruthy (reqGet reqHeaders "Range") then
            objSet (objSet hs1 "Accept-Ranges" "bytes") "Content-Range"
              (jsOr (reqGet resp.headers "Content-Range") "")
          else hs1
        (⟨resp.status, applyResSet hs2, .upstreamBody⟩, rr.attempts)

/-- Embedding of the Pages-function proxyKuwoAudio. -/
def proxyKuwoAudio_ts (target : Option JSURL) (method : String) (reqHeaders : HeaderMap)
    (oracle : Nat → FetchOutcome) : ServerResponse × Nat :=
  match normalizeKuwoUrl target with
  | none => (⟨400, [], .text "Invalid target"⟩, 0)
  | some _ =>
    let rr := fetchWithRetryTS oracle
    match rr.result with
    | .error _ => (⟨502, [], .text "Audio proxy failed"⟩, rr.attempts)
    | .ok resp =>
      let hs0 := createCorsHeadersTS (some resp.headers)
      let hs1 := if headersHas hs0 "Cache-Control" then hs0
        else headersSet hs0 "Cache-Control" "public, max-age=3600"
      (⟨resp.status, hs1, .upstreamBody⟩, rr.attempts)

/-! ## Metadata API proxy handler

Shared logic (src/functions/server.js lines 105-159, src/unnamed/part_000
lines 139-174, src/unnamed/part_001 lines 193-247): copy every inbound query
parameter except target and callback onto the fixed API base URL (which
carries no query of its own) with URLSearchParams.set semantics, require a
types parameter, fetch, sanitize, and relay with a JSON-flavored Content-Type
default.  The embedding follows the Express servers for the error statuses and
the Content-Type selection by types. -/

/-- URLSearchParams.set on the entries with an exactly matching key: the first
occurrence takes the new value in place and later occurrences are removed. -/
def paramsSetAux (k v : String) : HeaderMap → HeaderMap
  | [] => []
  | p :: t => if p.1 = k then (k, v) :: t.filter (fun q => q.1 ≠ k)
    else p :: paramsSetAux k v t

/-- URLSearchParams.set: replace an existing key or append the pair. -/
def paramsSet (ps : HeaderMap) (k v : String) : HeaderMap :=
  if ps.any (fun p => p.1 = k) then paramsSetAux k v ps else ps ++ [(k, v)]

/-- URLSearchParams.has. -/
def hasParam (ps : HeaderMap) (k : String) : Bool :=
  ps.any fun p => p.1 = k

/-- One iteration of the query-copying loop: target and callback are skipped. -/
def apiParamStep (acc : HeaderMap) (kv : String × String) : HeaderMap :=
  if kv.1 = "target" ∨ kv.1 = "callback" then acc else paramsSet acc kv.1 kv.2

/-- Query parameters of the upstream API URL built from the inbound query. -/
def buildApiParams (q : HeaderMap) : HeaderMap :=
  q.foldl apiParamStep []

/-- Exact-key first-match query lookup (req.query.types on a parsed query). -/
def queryGet (q : HeaderMap) (k : String) : Option String :=
  (q.find? fun p => p.1 = k).map Prod.snd

/-- Embedding of the Express proxyApiRequest over the inbound query entries,
inbound headers, and the upstream oracle with the metadata retry policy. -/
def proxyApiRequest_model (q reqHeaders : HeaderMap) (oracle : Nat → FetchOutcome)
    (maxRetries retryDelay : Nat) : ServerResponse × Nat :=
  let apiParams := buildApiParams q
  if hasParam apiParams "types" then
    let types := jsOr (queryGet q "types") ""
    let rr := fetchWithRetry oracle maxRetries retryDelay
    match rr.result with
    | .error _ => (⟨500, [], .text "Proxy error"⟩, rr.attempts)
    | .ok resp =>
      let hs0 := createCorsHeaders resp.headers
      let hs1 := if strTruthy (objGet hs0 "Content-Type") then hs0
        else objSet hs0 "Content-Type"
          (if types = "pic" then "image/jpeg" else "application/json; charset=utf-8")
      (⟨resp.status, applyResSet hs1, .upstreamBody⟩, rr.attempts)
  else (⟨400, [], .text "Missing types"⟩, 0)

/-! ## Theorems

All supporting lemmas and claim theorems follow, in the order of the
components above. -/

/-- C1: the host allow-list validator accepts a hostname exactly when it equals
kuwo.cn or is a dot-separated subdomain of it, case-insensitively; in
particular music.kuwo.cn and KUWO.CN are accepted, kuwo.cn.evil.com,
notkuwo.cn and the empty hostname are rejected. -/
theorem isAllowedKuwoHost_iff_specAllowedHost :
    (∀ h : String, isAllowedKuwoHost h = true ↔ specAllowedHost h) ∧
    isAllowedKuwoHost "music.kuwo.cn" = true ∧
    isAllowedKuwoHost "KUWO.CN" = true ∧
    isAllowedKuwoHost "kuwo.cn.evil.com" = false ∧
    isAllowedKuwoHost "notkuwo.cn" = false ∧
    isAllowedKuwoHost "" = false := by
  refine ⟨fun h => ?_, by decide, by decide, by decide, by decide, by decide⟩
  unfold isAllowedKuwoHost kuwoHostPatternTest specAllowedHost
  by_cases he : h = ""
  · subst he
    rw [if_pos rfl]
    constructor
    · intro hfalse; exact absurd hfalse (by decide)
    · rintro (habs | ⟨s, habs⟩)
      · exact absurd habs (by decide)
      · have hlen := congrArg List.length habs
        simp [lowerStr] at hlen
  · rw [if_neg he]
    rw [Bool.or_eq_true, beq_iff_eq, List.isSuffixOf_iff_suffix]
    constructor
    · rintro (h1 | h2)
      · exact Or.inl h1
      · obtain ⟨t, ht⟩ := h2
        exact Or.inr ⟨t, ht.symm⟩
    · rintro (h1 | ⟨s, hs⟩)
      · exact Or.inl h1
      · exact Or.inr ⟨s, hs.symm⟩

theorem objSet_all {P : String × String → Bool} {hs : HeaderMap} {k v : String}
    (h1 : hs.all P = true) (h2 : P (k, v) = true) : (objSet hs k v).all P = true := by
  unfold objSet
  split
  · rw [List.all_eq_true] at h1 ⊢
    intro x hx
    obtain ⟨p, hp, hpx⟩ := List.mem_map.mp hx
    by_cases hk : p.1 = k
    · rw [if_pos hk] at hpx; exact hpx ▸ h2
    · rw [if_neg hk] at hpx; exact hpx ▸ h1 p hp
  · rw [List.all_append, Bool.and_eq_true]
    exact ⟨h1, by simpa using h2⟩

theorem safe_contains_lower_lower {k : String}
    (h : SAFE_RESPONSE_HEADERS.contains (lowerStr k) = true) :
    SAFE_RESPONSE_HEADERS.contains (lowerStr (lowerStr k)) = true := by
  have hm : lowerStr k ∈ SAFE_RESPONSE_HEADERS := List.elem_iff.mp h
  simp only [SAFE_RESPONSE_HEADERS, List.mem_cons, List.not_mem_nil, or_false] at hm
  rcases hm with h' | h' | h' | h' | h' | h' | h' | h'
  all_goals rw [h']; decide

theorem foldl_corsStep_all (up : HeaderMap) :
    ∀ acc : HeaderMap, acc.all (fun p => allowedOutName p.1) = true →
      (up.foldl corsStep acc).all (fun p => allowedOutName p.1) = true := by
  induction up with
  | nil => intro acc h; exact h
  | cons kv t ih =>
    intro acc h
    rw [List.foldl_cons]
    apply ih
    unfold corsStep
    split
    · next hc =>
      apply objSet_all h
      unfold allowedOutName
      rw [hc]
      rfl
    · exact h

theorem foldl_corsStepTS_all (up : HeaderMap) :
    ∀ acc : HeaderMap, acc.all (fun p => allowedOutName p.1) = true →
      (up.foldl corsStepTS acc).all (fun p => allowedOutName p.1) = true := by
  induction up with
  | nil => intro acc h; exact h
  | cons kv t ih =>
    intro acc h
    rw [List.foldl_cons]
    apply ih
    unfold corsStepTS
    split
    · next hc =>
      apply objSet_all h
      unfold allowedOutName
      rw [safe_contains_lower_lower hc]
      rfl
    · exact h

/-- C2: for every upstream header mapping (including adversarial ones carrying
Set-Cookie or Server), both sanitizer variants emit only names in the fixed
eight-name safe list union Access-Control-Allow-Origin and Cache-Control,
compared case-insensitively. -/
theorem createCorsHeaders_only_allowed_names (upstream : HeaderMap) (init? : Option HeaderMap) :
    ((createCorsHeaders upstream).all fun p => allowedOutName p.1) = true ∧
    ((createCorsHeadersTS init?).all fun p => allowedOutName p.1) = true := by
  constructor
  · exact foldl_corsStep_all upstream _ (by decide)
  · unfold createCorsHeadersTS
    have base : ∀ hs : HeaderMap, hs.all (fun p => allowedOutName p.1) = true →
        ((if headersHas hs "Cache-Control" then hs
          else headersSet hs "Cache-Control" "no-store").all fun p => allowedOutName p.1) = true := by
      intro hs h
      split
      · exact h
      · exact objSet_all h (by decide)
    cases init? with
    | none =>
      exact objSet_all (base [] (by decide)) (by decide)
    | some entries =>
      exact objSet_all (base _ (foldl_corsStepTS_all entries [] (by decide))) (by decide)

/-- C3: every accepted input comes back with scheme exactly http; a string that
does not parse as an absolute URL (parse outcome none) yields null rather than
being treated as relative; and any parsed URL whose scheme is neither http nor
https is rejected. -/
theorem normalizeKuwoUrl_scheme (parsed? : Option JSURL) :
    (∀ u : JSURL, normalizeKuwoUrl parsed? = some u → u.protocol = "http:") ∧
    normalizeKuwoUrl none = none ∧
    (∀ v : JSURL, parsed? = some v → v.protocol ≠ "http:" → v.protocol ≠ "https:" →
      normalizeKuwoUrl parsed? = none) := by
  refine ⟨?_, rfl, ?_⟩
  · intro u hu
    cases parsed? with
    | none => simp [normalizeKuwoUrl] at hu
    | some p =>
      simp only [normalizeKuwoUrl] at hu
      split at hu
      · cases hu
      · split at hu
        · cases hu
        · cases hu
          rfl
  · intro v hv hhttp hhttps
    subst hv
    simp only [normalizeKuwoUrl]
    split
    · rfl
    · rw [if_pos ⟨hhttp, hhttps⟩]

/-- Witness for C3 at concrete inputs: an accepted https URL comes back with
scheme http, and an ftp URL on an allow-listed host is rejected. -/
theorem normalizeKuwoUrl_scheme_witness :
    (JSURL.mk "http:" "music.kuwo.cn" "/x.mp3").protocol = "http:" ∧
    normalizeKuwoUrl (some ⟨"ftp:", "music.kuwo.cn", "/x.mp3"⟩) = none := by
  constructor
  · exact (normalizeKuwoUrl_scheme (some ⟨"https:", "music.kuwo.cn", "/x.mp3"⟩)).1
      ⟨"http:", "music.kuwo.cn", "/x.mp3"⟩ (by decide)
  · exact (normalizeKuwoUrl_scheme (some ⟨"ftp:", "music.kuwo.cn", "/x.mp3"⟩)).2.2
      ⟨"ftp:", "music.kuwo.cn", "/x.mp3"⟩ rfl (by decide) (by decide)

theorem fetchWithRetryGo_succ_resp {oracle : Nat → FetchOutcome} {d rem attempt : Nat}
    {le : Option String} {ds : List Nat} {r : UpstreamResponse}
    (h : oracle attempt = .resp r) :
    fetchWithRetryGo oracle d (rem + 1) attempt le ds
      = if 500 ≤ r.status ∧ 0 < rem then
          fetchWithRetryGo oracle d rem (attempt + 1) le (ds ++ [d * 2 ^ (attempt - 1)])
        else ⟨.ok r, attempt, ds⟩ := by
  rw [fetchWithRetryGo, h]

theorem fetchWithRetryGo_succ_err {oracle : Nat → FetchOutcome} {d rem attempt : Nat}
    {le : Option String} {ds : List Nat} {e : String}
    (h : oracle attempt = .err e) :
    fetchWithRetryGo oracle d (rem + 1) attempt le ds
      = if 0 < rem then
          fetchWithRetryGo oracle d rem (attempt + 1) (some e) (ds ++ [d * 2 ^ (attempt - 1)])
        else ⟨.error (some e), attempt, ds⟩ := by
  rw [fetchWithRetryGo, h]

theorem fetchWithRetryGo_delays (oracle : Nat → FetchOutcome) (d : Nat) :
    ∀ remaining attempt lastError, 1 ≤ attempt → 1 ≤ remaining →
      (fetchWithRetryGo oracle d remaining attempt lastError
          ((List.range (attempt - 1)).map fun n => d * 2 ^ n)).delays
        = (List.range
            ((fetchWithRetryGo oracle d remaining attempt lastError
                ((List.range (attempt - 1)).map fun n => d * 2 ^ n)).attempts - 1)).map
            fun n => d * 2 ^ n := by
  intro remaining
  induction remaining with
  | zero => intro attempt lastError _ h2; exact absurd h2 (by omega)
  | succ rem ih =>
    intro attempt lastError h1 _
    have hstep : (List.range (attempt - 1)).map (fun n => d * 2 ^ n) ++ [d * 2 ^ (attempt - 1)]
        = (List.range (attempt + 1 - 1)).map fun n => d * 2 ^ n := by
      have : attempt + 1 - 1 = (attempt - 1) + 1 := by omega
      rw [this, List.range_succ, List.map_append, List.map_cons, List.map_nil]
    cases ho : oracle attempt with
    | resp r =>
      rw [fetchWithRetryGo_succ_resp ho]
      by_cases hc : 500 ≤ r.status ∧ 0 < rem
      · rw [if_pos hc, hstep]
        exact ih (attempt + 1) lastError (by omega) hc.2
      · rw [if_neg hc]
    | err e =>
      rw [fetchWithRetryGo_succ_err ho]
      by_cases hc : 0 < rem
      · rw [if_pos hc, hstep]
        exact ih (attempt + 1) (some e) (by omega) hc
      · rw [if_neg hc]

theorem fetchWithRetryGo_all_err (oracle : Nat → FetchOutcome) (d : Nat) :
    ∀ remaining attempt lastError delays, 1 ≤ remaining →
      (∀ k, attempt ≤ k → k < attempt + remaining → ∃ e, oracle k = .err e) →
      ∃ e, (fetchWithRetryGo oracle d remaining attempt lastError delays).result
        = .error (some e) := by
  intro remaining
  induction remaining with
  | zero => intro _ _ _ h1 _; exact absurd h1 (by omega)
  | succ rem ih =>
    intro attempt lastError delays _ hall
    obtain ⟨e, he⟩ := hall attempt (le_refl _) (by omega)
    rw [fetchWithRetryGo_succ_err he]
    by_cases hc : 0 < rem
    · rw [if_pos hc]
      exact ih (attempt + 1) (some e) _ hc fun k hk1 hk2 => hall k (by omega) (by omega)
    · rw [if_neg hc]
      exact ⟨e, rfl⟩

theorem fetchWithRetryGo_decides (oracle : Nat → FetchOutcome) (d : Nat) :
    ∀ (j : Nat) (remaining attempt : Nat) (lastError : Option String) (r : UpstreamResponse),
      1 ≤ attempt → j + 1 ≤ remaining →
      (∀ k, attempt ≤ k → k < attempt + j → retryable oracle k) →
      oracle (attempt + j) = .resp r → (r.status < 500 ∨ j + 1 = remaining) →
      fetchWithRetryGo oracle d remaining attempt lastError
          ((List.range (attempt - 1)).map fun n => d * 2 ^ n)
        = ⟨.ok r, attempt + j, (List.range (attempt + j - 1)).map fun n => d * 2 ^ n⟩ := by
  intro j
  induction j with
  | zero =>
    intro remaining attempt lastError r h1 hrem hall hoj hdec
    cases remaining with
    | zero => exact absurd hrem (by omega)
    | succ rem =>
      rw [Nat.add_zero] at hoj
      rw [fetchWithRetryGo_succ_resp hoj, if_neg (by omega), Nat.add_zero]
  | succ j ih =>
    intro remaining attempt lastError r h1 hrem hall hoj hdec
    cases remaining with
    | zero => exact absurd hrem (by omega)
    | succ rem =>
      have hstep : (List.range (attempt - 1)).map (fun n => d * 2 ^ n) ++ [d * 2 ^ (attempt - 1)]
          = (List.range (attempt + 1 - 1)).map fun n => d * 2 ^ n := by
        have h2 : attempt + 1 - 1 = (attempt - 1) + 1 := by omega
        rw [h2, List.range_succ, List.map_append, List.map_cons, List.map_nil]
      have heq : attempt + 1 + j = attempt + (j + 1) := by omega
      have hoj' : oracle (attempt + 1 + j) = .resp r := by rw [heq]; exact hoj
      have hall' : ∀ k, attempt + 1 ≤ k → k < attempt + 1 + j → retryable oracle k :=
        fun k hk1 hk2 => hall k (by omega) (by omega)
      have hrem' : j + 1 ≤ rem := by omega
      have hdec' : r.status < 500 ∨ j + 1 = rem := hdec.imp id fun hh => by omega
      rcases hall attempt (le_refl _) (by omega) with ⟨r1, hor1, h5r1⟩ | ⟨e, hoe⟩
      · rw [fetchWithRetryGo_succ_resp hor1, if_pos ⟨h5r1, by omega⟩, hstep]
        rw [ih rem (attempt + 1) lastError r (by omega) hrem' hall' hoj' hdec', heq]
      · rw [fetchWithRetryGo_succ_err hoe, if_pos (by omega : 0 < rem), hstep]
        rw [ih rem (attempt + 1) (some e) r (by omega) hrem' hall' hoj' hdec', heq]

theorem fetchWithRetryGo_attempts_ge (oracle : Nat → FetchOutcome) (d : Nat) :
    ∀ remaining, 1 ≤ remaining → ∀ attempt lastError ds,
      attempt ≤ (fetchWithRetryGo oracle d remaining attempt lastError ds).attempts := by
  intro remaining
  induction remaining with
  | zero => intro h; exact absurd h (by omega)
  | succ rem ih =>
    intro _ attempt lastError ds
    cases ho : oracle attempt with
    | resp r =>
      rw [fetchWithRetryGo_succ_resp ho]
      by_cases hc : 500 ≤ r.status ∧ 0 < rem
      · rw [if_pos hc]
        exact le_trans (by omega) (ih hc.2 (attempt + 1) lastError _)
      · rw [if_neg hc]
    | err e =>
      rw [fetchWithRetryGo_succ_err ho]
      by_cases hc : 0 < rem
      · rw [if_pos hc]
        exact le_trans (by omega) (ih hc (attempt + 1) (some e) _)
      · rw [if_neg hc]

theorem fetchWithRetryGo_attempts_gt (oracle : Nat → FetchOutcome) (d : Nat) :
    ∀ (j : Nat), ∀ remaining attempt lastError ds, j + 1 ≤ remaining →
      (∀ k, attempt ≤ k → k < attempt + j → retryable oracle k) →
      attempt + j ≤ (fetchWithRetryGo oracle d remaining attempt lastError ds).attempts := by
  intro j
  induction j with
  | zero =>
    intro remaining attempt lastError ds h1 _
    rw [Nat.add_zero]
    exact fetchWithRetryGo_attempts_ge oracle d remaining h1 attempt lastError ds
  | succ j ih =>
    intro remaining attempt lastError ds h1 hall
    have hret := hall attempt (le_refl _) (by omega)
    cases remaining with
    | zero => exact absurd h1 (by omega)
    | succ rem =>
      rcases hret with ⟨r, hor, hr5⟩ | ⟨e, hoe⟩
      · rw [fetchWithRetryGo_succ_resp hor, if_pos ⟨hr5, by omega⟩]
        have h := ih rem (attempt + 1) lastError (ds ++ [d * 2 ^ (attempt - 1)]) (by omega)
          (fun k hk1 hk2 => hall k (by omega) (by omega))
        omega
      · rw [fetchWithRetryGo_succ_err hoe, if_pos (by omega : 0 < rem)]
        have h := ih rem (attempt + 1) (some e) (ds ++ [d * 2 ^ (attempt - 1)]) (by omega)
          (fun k hk1 hk2 => hall k (by omega) (by omega))
        omega

/-- C4: the retry state machine, characterized at every attempt of every call.
Whenever attempts 1 to j-1 are all retryable (5xx response or transport error)
— which is exactly when the run reaches attempt j — and attempt j yields a
response with status below 500, or any response when j is the final attempt,
the call returns that response with exactly j attempts and with the waits
baseDelay * 2 ^ n for the zero-based indices n of the earlier attempts, so
waits occur only between attempts and never after the final one, and a 5xx on
the final attempt comes back as a response, not an error; a retryable outcome
on a non-final attempt always triggers a further attempt; every run's delay
trace follows the exponential formula; and an always-503 target with
maxAttempts = 3 is tried exactly 3 times, waits d and 2d, and gets the final
503 back. -/
theorem fetchWithRetry_policy :
    (∀ (oracle : Nat → FetchOutcome) (m d j : Nat) (r : UpstreamResponse),
      1 ≤ j → j ≤ m →
      (∀ k, 1 ≤ k → k < j → retryable oracle k) →
      oracle j = .resp r → (r.status < 500 ∨ j = m) →
      fetchWithRetry oracle m d
        = ⟨.ok r, j, (List.range (j - 1)).map fun n => d * 2 ^ n⟩) ∧
    (∀ (oracle : Nat → FetchOutcome) (m d j : Nat),
      1 ≤ j → j < m →
      (∀ k, 1 ≤ k → k ≤ j → retryable oracle k) →
      j < (fetchWithRetry oracle m d).attempts) ∧
    (∀ (oracle : Nat → FetchOutcome) (m d : Nat), 1 ≤ m →
      (fetchWithRetry oracle m d).delays
        = (List.range ((fetchWithRetry oracle m d).attempts - 1)).map fun n => d * 2 ^ n) ∧
    (∀ d : Nat,
      fetchWithRetry (fun _ => .resp ⟨503, []⟩) MAX_RETRIES d
        = ⟨.ok ⟨503, []⟩, 3, [d, 2 * d]⟩) := by
  refine ⟨?_, ?_, ?_, ?_⟩
  · intro oracle m d j r hj hjm hall hoj hdec
    have heq : 1 + (j - 1) = j := by omega
    have h := fetchWithRetryGo_decides oracle d (j - 1) m 1 none r (le_refl _) (by omega)
      (fun k hk1 hk2 => hall k hk1 (by omega)) (by rw [heq]; exact hoj)
      (hdec.imp id fun hh => by omega)
    rw [heq] at h
    rw [show ((List.range (1 - 1)).map fun n => d * 2 ^ n) = ([] : List Nat) from rfl] at h
    exact h
  · intro oracle m d j hj hjm hall
    have h := fetchWithRetryGo_attempts_gt oracle d j m 1 none [] (by omega)
      (fun k hk1 hk2 => hall k hk1 (by omega))
    have h2 : (fetchWithRetry oracle m d).attempts
        = (fetchWithRetryGo oracle d m 1 none []).attempts := rfl
    omega
  · intro oracle m d hm
    have h := fetchWithRetryGo_delays oracle d m 1 none (le_refl _) hm
    simpa [fetchWithRetry] using h
  · intro d
    show fetchWithRetryGo _ d 3 1 none [] = _
    rw [show (3 : Nat) = 2 + 1 from rfl, fetchWithRetryGo_succ_resp rfl,
      if_pos ⟨by decide, by decide⟩]
    rw [show (2 : Nat) = 1 + 1 from rfl, fetchWithRetryGo_succ_resp rfl,
      if_pos ⟨by decide, by decide⟩]
    rw [show (1 : Nat) = 0 + 1 from rfl, fetchWithRetryGo_succ_resp rfl,
      if_neg (by decide)]
    simp [pow_zero, pow_one, Nat.mul_comm]

/-- Witness for C4 at concrete inputs: a mixed oracle answering 503 then 404
decides at the second attempt after one wait; a 404 on the first attempt gives
exactly one attempt and no delays; a 503 on a non-final first attempt forces a
second attempt; and the always-503 run at d = 1000 waits 1000 and 2000. -/
theorem fetchWithRetry_policy_witness :
    fetchWithRetry (fun k => if k = 1 then .resp ⟨503, []⟩ else .resp ⟨404, []⟩) 3 1000
      = ⟨.ok ⟨404, []⟩, 2, [1000]⟩ ∧
    fetchWithRetry (fun _ => .resp ⟨404, []⟩) 3 1000 = ⟨.ok ⟨404, []⟩, 1, []⟩ ∧
    1 < (fetchWithRetry (fun _ => .resp ⟨503, []⟩) 2 500).attempts ∧
    fetchWithRetry (fun _ => .resp ⟨503, []⟩) MAX_RETRIES 1000
      = ⟨.ok ⟨503, []⟩, 3, [1000, 2000]⟩ := by
  refine ⟨?_, ?_, ?_, ?_⟩
  · have h := fetchWithRetry_policy.1
      (fun k => if k = 1 then .resp ⟨503, []⟩ else .resp ⟨404, []⟩) 3 1000 2 ⟨404, []⟩
      (by omega) (by omega)
      (fun k hk1 hk2 => by
        have hk : k = 1 := by omega
        subst hk
        exact Or.inl ⟨⟨503, []⟩, rfl, by decide⟩)
      rfl (Or.inl (by decide))
    simpa [List.range_succ] using h
  · have h := fetchWithRetry_policy.1 (fun _ => .resp ⟨404, []⟩) 3 1000 1 ⟨404, []⟩
      (by omega) (by omega) (fun k hk1 hk2 => absurd hk2 (by omega)) rfl (Or.inl (by decide))
    simpa using h
  · exact fetchWithRetry_policy.2.1 (fun _ => .resp ⟨503, []⟩) 2 500 1 (by omega) (by omega)
      (fun k hk1 hk2 => Or.inl ⟨⟨503, []⟩, rfl, by decide⟩)
  · have h := fetchWithRetry_policy.2.2.2 1000
    simpa using h

/-! ## Claims C5, C6, C7: audio-path error handling -/

/-- C5 counterexample: when every attempt fails with a transport error and
retries are exhausted, neither variant returns 502 with body Proxy error as
claimed: the Express servers return 500 with body Proxy error and the
Pages-function variant returns 502 with body Audio proxy failed. -/
theorem audio_transport_error_counterexample :
    (proxyKuwoAudio_express (some ⟨"https:", "music.kuwo.cn", "/song.mp3"⟩) []
        (fun _ => .err "connect ECONNREFUSED") 2 500).1
      = ⟨500, [], .text "Proxy error"⟩ ∧
    (proxyKuwoAudio_ts (some ⟨"https:", "music.kuwo.cn", "/song.mp3"⟩) "GET" []
        (fun _ => .err "connect ECONNREFUSED")).1
      = ⟨502, [], .text "Audio proxy failed"⟩ ∧
    (500 ≠ 502 ∧ ("Audio proxy failed" : String) ≠ "Proxy error") :=
  ⟨rfl, rfl, by omega, by decide⟩

/-- C5 (amended): when every attempt fails with a transport error and retries
are exhausted, the Express variants fabricate 500 with body Proxy error, the
Pages-function variant fabricates 502 with body Audio proxy failed, and in the
Pages-function variant a fabricated (non-relayed) body occurs only with status
400 or 502. -/
theorem audio_transport_error_amended :
    (∀ (t : Option JSURL) (reqHeaders : HeaderMap) (oracle : Nat → FetchOutcome) (m d : Nat),
      normalizeKuwoUrl t ≠ none → 1 ≤ m →
      (∀ k, 1 ≤ k → k ≤ m → ∃ e, oracle k = .err e) →
      (proxyKuwoAudio_express t reqHeaders oracle m d).1 = ⟨500, [], .text "Proxy error"⟩) ∧
    (∀ (t : Option JSURL) (method : String) (reqHeaders : HeaderMap)
        (oracle : Nat → FetchOutcome),
      normalizeKuwoUrl t ≠ none →
      (∀ k, 1 ≤ k → k ≤ MAX_RETRIES → ∃ e, oracle k = .err e) →
      (proxyKuwoAudio_ts t method reqHeaders oracle).1 = ⟨502, [], .text "Audio proxy failed"⟩) ∧
    (∀ (t : Option JSURL) (method : String) (reqHeaders : HeaderMap)
        (oracle : Nat → FetchOutcome),
      (proxyKuwoAudio_ts t method reqHeaders oracle).1.body ≠ .upstreamBody →
      (proxyKuwoAudio_ts t method reqHeaders oracle).1.status = 400 ∨
      (proxyKuwoAudio_ts t method reqHeaders oracle).1.status = 502) := by
  refine ⟨?_, ?_, ?_⟩
  · intro t reqHeaders oracle m d hn hm hall
    obtain ⟨u, hu⟩ := Option.ne_none_iff_exists'.mp hn
    obtain ⟨e, he⟩ := fetchWithRetryGo_all_err oracle d m 1 none [] hm
      (fun k h1 h2 => hall k h1 (by omega))
    have herr : (fetchWithRetry oracle m d).result = .error (some e) := he
    simp only [proxyKuwoAudio_express, hu, herr]
  · intro t method reqHeaders oracle hn hall
    obtain ⟨u, hu⟩ := Option.ne_none_iff_exists'.mp hn
    obtain ⟨e, he⟩ := fetchWithRetryGo_all_err oracle RETRY_DELAY_BASE MAX_RETRIES 1 none []
      (by decide) (fun k h1 h2 => hall k h1 (by omega))
    have herr : (fetchWithRetryTS oracle).result = .error (some e) := he
    simp only [proxyKuwoAudio_ts, hu, herr]
  · intro t method reqHeaders oracle hb
    cases hu : normalizeKuwoUrl t with
    | none =>
      left
      simp only [proxyKuwoAudio_ts, hu]
    | some u =>
      cases hr : (fetchWithRetryTS oracle).result with
      | error e =>
        right
        simp only [proxyKuwoAudio_ts, hu, hr]
      | ok resp =>
        exact absurd (by simp only [proxyKuwoAudio_ts, hu, hr]) hb

/-- Witness for the amended C5 on concrete all-failing oracles. -/
theorem audio_transport_error_amended_witness :
    (proxyKuwoAudio_express (some ⟨"http:", "kuwo.cn", "/a"⟩) []
        (fun _ => .err "ETIMEDOUT") 1 1000).1 = ⟨500, [], .text "Proxy error"⟩ ∧
    (proxyKuwoAudio_ts (some ⟨"http:", "kuwo.cn", "/a"⟩) "GET" []
        (fun _ => .err "ETIMEDOUT")).1 = ⟨502, [], .text "Audio proxy failed"⟩ :=
  ⟨audio_transport_error_amended.1 _ [] _ 1 1000 (by decide) (by omega)
      (fun _ _ _ => ⟨"ETIMEDOUT", rfl⟩),
   audio_transport_error_amended.2.1 _ "GET" [] _ (by decide)
      (fun _ _ _ => ⟨"ETIMEDOUT", rfl⟩)⟩

/-- C6 counterexample: on the Express audio path a genuine upstream 404 is
relayed with a synthetic body Failed to fetch audio, not with the upstream
body. -/
theorem audio_relay_counterexample :
    (proxyKuwoAudio_express (some ⟨"http:", "www.kuwo.cn", "/b.mp3"⟩) []
        (fun _ => .resp ⟨404, []⟩) 1 1000).1.status = 404 ∧
    (proxyKuwoAudio_express (some ⟨"http:", "www.kuwo.cn", "/b.mp3"⟩) []
        (fun _ => .resp ⟨404, []⟩) 1 1000).1.body = .text "Failed to fetch audio" ∧
    BodySrc.text "Failed to fetch audio" ≠ .upstreamBody :=
  ⟨rfl, rfl, by decide⟩

/-- C6 (amended): when the upstream fetch yields a response, the Pages-function
variant relays the upstream status and body unchanged for every status, while
the Express variants relay the status but substitute the body Failed to fetch
audio whenever the status is not 2xx, relaying the upstream body only for 2xx
statuses. -/
theorem audio_relay_amended :
    (∀ (t : Option JSURL) (method : String) (reqHeaders : HeaderMap)
        (oracle : Nat → FetchOutcome) (resp : UpstreamResponse),
      normalizeKuwoUrl t ≠ none → (fetchWithRetryTS oracle).result = .ok resp →
      (proxyKuwoAudio_ts t method reqHeaders oracle).1.status = resp.status ∧
      (proxyKuwoAudio_ts t method reqHeaders oracle).1.body = .upstreamBody) ∧
    (∀ (t : Option JSURL) (reqHeaders : HeaderMap) (oracle : Nat → FetchOutcome)
        (m d : Nat) (resp : UpstreamResponse),
      normalizeKuwoUrl t ≠ none → (fetchWithRetry oracle m d).result = .ok resp →
      (proxyKuwoAudio_express t reqHeaders oracle m d).1.status = resp.status ∧
      (proxyKuwoAudio_express t reqHeaders oracle m d).1.body
        = if 200 ≤ resp.status ∧ resp.status < 300 then BodySrc.upstreamBody
          else .text "Failed to fetch audio") := by
  constructor
  · intro t method reqHeaders oracle resp hn hr
    obtain ⟨u, hu⟩ := Option.ne_none_iff_exists'.mp hn
    constructor <;> simp only [proxyKuwoAudio_ts, hu, hr]
  · intro t reqHeaders oracle m d resp hn hr
    obtain ⟨u, hu⟩ := Option.ne_none_iff_exists'.mp hn
    by_cases hok : resp.status < 200 ∨ 300 ≤ resp.status
    · constructor
      · simp only [proxyKuwoAudio_express, hu, hr, if_pos hok]
      · simp only [proxyKuwoAudio_express, hu, hr, if_pos hok]
        rw [if_neg (by omega)]
    · constructor
      · simp only [proxyKuwoAudio_express, hu, hr, if_neg hok]
      · simp only [proxyKuwoAudio_express, hu, hr, if_neg hok]
        rw [if_pos (by omega)]

/-- Witness for the amended C6: a relayed 206 on the Pages-function variant and
a relayed 404 with substituted body on the Express variant. -/
theorem audio_relay_amended_witness :
    (proxyKuwoAudio_ts (some ⟨"https:", "music.kuwo.cn", "/ok.mp3"⟩) "GET" []
        (fun _ => .resp ⟨206, [("content-range", "bytes 0-1/2")]⟩)).1.status = 206 ∧
    (proxyKuwoAudio_ts (some ⟨"https:", "music.kuwo.cn", "/ok.mp3"⟩) "GET" []
        (fun _ => .resp ⟨206, [("content-range", "bytes 0-1/2")]⟩)).1.body = .upstreamBody ∧
    (proxyKuwoAudio_express (some ⟨"https:", "music.kuwo.cn", "/ok.mp3"⟩) []
        (fun _ => .resp ⟨410, []⟩) 1 1000).1.body = .text "Failed to fetch audio" := by
  refine ⟨?_, ?_, ?_⟩
  · exact (audio_relay_amended.1 (some ⟨"https:", "music.kuwo.cn", "/ok.mp3"⟩) "GET" []
      (fun _ => .resp ⟨206, [("content-range", "bytes 0-1/2")]⟩)
      ⟨206, [("content-range", "bytes 0-1/2")]⟩ (by decide) rfl).1
  · exact (audio_relay_amended.1 (some ⟨"https:", "music.kuwo.cn", "/ok.mp3"⟩) "GET" []
      (fun _ => .resp ⟨206, [("content-range", "bytes 0-1/2")]⟩)
      ⟨206, [("content-range", "bytes 0-1/2")]⟩ (by decide) rfl).2
  · have h := (audio_relay_amended.2 (some ⟨"https:", "music.kuwo.cn", "/ok.mp3"⟩) []
      (fun _ => .resp ⟨410, []⟩) 1 1000 ⟨410, []⟩ (by decide) rfl).2
    simpa using h

/-- C7 counterexample: the Express variants reject an invalid target with body
Invalid Kuwo URL, not Invalid target. -/
theorem invalid_target_counterexample :
    (proxyKuwoAudio_express (some ⟨"https:", "evil.com", "/x"⟩) []
        (fun _ => .resp ⟨200, []⟩) 3 1000).1
      = ⟨400, [], .text "Invalid Kuwo URL"⟩ ∧
    ("Invalid Kuwo URL" : String) ≠ "Invalid target" :=
  ⟨rfl, by decide⟩

/-- C7 (amended): every request whose target fails URL validation gets status
400 with no upstream fetch attempt; the body is Invalid target in the
Pages-function variant and Invalid Kuwo URL in the Express variants. -/
theorem invalid_target_amended (t : Option JSURL) (method : String) (reqHeaders : HeaderMap)
    (oracle : Nat → FetchOutcome) (m d : Nat) (hn : normalizeKuwoUrl t = none) :
    proxyKuwoAudio_express t reqHeaders oracle m d = (⟨400, [], .text "Invalid Kuwo URL"⟩, 0) ∧
    proxyKuwoAudio_ts t method reqHeaders oracle = (⟨400, [], .text "Invalid target"⟩, 0) := by
  constructor
  · simp only [proxyKuwoAudio_express, hn]
  · simp only [proxyKuwoAudio_ts, hn]

/-- Witness for the amended C7 at a concrete disallowed host. -/
theorem invalid_target_amended_witness :
    proxyKuwoAudio_express (some ⟨"https:", "kuwo.cn.evil.com", "/x"⟩) []
        (fun _ => .resp ⟨200, []⟩) 3 1000 = (⟨400, [], .text "Invalid Kuwo URL"⟩, 0) ∧
    proxyKuwoAudio_ts (some ⟨"https:", "kuwo.cn.evil.com", "/x"⟩) "GET" []
        (fun _ => .resp ⟨200, []⟩) = (⟨400, [], .text "Invalid target"⟩, 0) :=
  invalid_target_amended (some ⟨"https:", "kuwo.cn.evil.com", "/x"⟩) "GET" []
    (fun _ => .resp ⟨200, []⟩) 3 1000 (by decide)

/-! ## Claim C8: metadata path parameter handling -/

theorem mem_paramsSetAux {k v : String} {p : String × String} :
    ∀ {ps : HeaderMap}, p ∈ paramsSetAux k v ps → p = (k, v) ∨ p ∈ ps := by
  intro ps
  induction ps with
  | nil => intro h; cases h
  | cons q t ih =>
    intro h
    unfold paramsSetAux at h
    split at h
    · rcases List.mem_cons.mp h with h1 | h1
      · exact Or.inl h1
      · exact Or.inr (List.mem_cons_of_mem _ (List.mem_of_mem_filter h1))
    · rcases List.mem_cons.mp h with h1 | h1
      · exact Or.inr (h1 ▸ List.mem_cons_self _ _)
      · rcases ih h1 with h2 | h2
        · exact Or.inl h2
        · exact Or.inr (List.mem_cons_of_mem _ h2)

theorem mem_paramsSet {ps : HeaderMap} {k v : String} {p : String × String}
    (h : p ∈ paramsSet ps k v) : p = (k, v) ∨ p ∈ ps := by
  unfold paramsSet at h
  split at h
  · exact mem_paramsSetAux h
  · rcases List.mem_append.mp h with h1 | h1
    · exact Or.inr h1
    · exact Or.inl (List.mem_singleton.mp h1)

theorem mem_buildApiParams_key {q : HeaderMap} {p : String × String}
    (h : p ∈ buildApiParams q) :
    p ∈ q ∧ p.1 ≠ "target" ∧ p.1 ≠ "callback" := by
  unfold buildApiParams at h
  suffices haux : ∀ (l acc : HeaderMap), p ∈ l.foldl apiParamStep acc →
      p ∈ acc ∨ (p ∈ l ∧ p.1 ≠ "target" ∧ p.1 ≠ "callback") by
    rcases haux q [] h with h1 | h1
    · cases h1
    · exact h1
  intro l
  induction l with
  | nil => intro acc hm; exact Or.inl hm
  | cons kv t ih =>
    intro acc hm
    rw [List.foldl_cons] at hm
    rcases ih _ hm with h1 | h1
    · unfold apiParamStep at h1
      split at h1
      · exact Or.inl h1
      · next hkeep =>
        rcases mem_paramsSet h1 with h2 | h2
        · subst h2
          exact Or.inr ⟨List.mem_cons_self _ _,
            fun hx => hkeep (Or.inl hx), fun hx => hkeep (Or.inr hx)⟩
        · exact Or.inl h2
    · exact Or.inr ⟨List.mem_cons_of_mem _ h1.1, h1.2⟩

theorem hasParam_buildApiParams_false {q : HeaderMap} {x : String}
    (h : ∀ p ∈ q, p.1 ≠ x) : hasParam (buildApiParams q) x = false := by
  rw [← Bool.not_eq_true, hasParam, List.any_eq_true]
  rintro ⟨p, hp, hpx⟩
  obtain ⟨hq, -, -⟩ := mem_buildApiParams_key hp
  exact h p hq (by simpa using hpx)

theorem hasParam_buildApiParams_stripped (q : HeaderMap) (x : String)
    (hx : x = "target" ∨ x = "callback") : hasParam (buildApiParams q) x = false := by
  rw [← Bool.not_eq_true, hasParam, List.any_eq_true]
  rintro ⟨p, hp, hpx⟩
  obtain ⟨-, ht, hc⟩ := mem_buildApiParams_key hp
  rcases hx with h | h
  · exact ht (by simpa [h] using hpx)
  · exact hc (by simpa [h] using hpx)

theorem paramsSet_append_of_absent {ps : HeaderMap} {k v : String}
    (h : (ps.any fun p => p.1 = k) = false) : paramsSet ps k v = ps ++ [(k, v)] := by
  unfold paramsSet
  rw [h]
  rfl

theorem buildApiParams_filter_of_nodup (q : HeaderMap) (hnd : (q.map Prod.fst).Nodup) :
    buildApiParams q = q.filter fun p => !decide (p.1 = "target" ∨ p.1 = "callback") := by
  unfold buildApiParams
  suffices haux : ∀ (l acc : HeaderMap), ((l.map Prod.fst).Nodup) →
      (∀ p ∈ l, (acc.any fun r => r.1 = p.1) = false) →
      l.foldl apiParamStep acc
        = acc ++ l.filter fun p => !decide (p.1 = "target" ∨ p.1 = "callback") by
    have h := haux q [] hnd (fun p _ => rfl)
    simpa using h
  intro l
  induction l with
  | nil => intro acc _ _; simp
  | cons kv t ih =>
    intro acc hnd2 habs
    rw [List.foldl_cons]
    rw [List.map_cons, List.nodup_cons] at hnd2
    by_cases hskip : kv.1 = "target" ∨ kv.1 = "callback"
    · rw [show apiParamStep acc kv = acc from by unfold apiParamStep; rw [if_pos hskip]]
      rw [ih acc hnd2.2 (fun p hp => habs p (List.mem_cons_of_mem _ hp))]
      congr 1
      rw [List.filter_cons]
      simp [hskip]
    · rw [show apiParamStep acc kv = paramsSet acc kv.1 kv.2 from by
        unfold apiParamStep; rw [if_neg hskip]]
      rw [paramsSet_append_of_absent (habs kv (List.mem_cons_self _ _))]
      rw [ih (acc ++ [(kv.1, kv.2)]) hnd2.2 ?side]
      case side =>
        intro p hp
        rw [List.any_append]
        rw [habs p (List.mem_cons_of_mem _ hp)]
        simp only [Bool.false_or, List.any_cons, List.any_nil, Bool.or_false]
        have : kv.1 ≠ p.1 := by
          intro hx
          exact hnd2.1 (hx ▸ List.mem_map_of_mem Prod.fst hp)
        simpa using fun hc => this hc
      rw [List.filter_cons]
      have : (!decide (kv.1 = "target" ∨ kv.1 = "callback")) = true := by simpa using hskip
      rw [this]
      simp

/-- C8: a metadata-path request without a types query parameter yields 400
Missing types and performs no upstream fetch, regardless of the other query
parameters; target and callback never reach the upstream query; and for a
duplicate-free query the forwarded parameters are exactly the inbound ones
except target and callback, verbatim. -/
theorem api_missing_types_strips_params (q reqHeaders : HeaderMap)
    (oracle : Nat → FetchOutcome) (m d : Nat) :
    ((∀ p ∈ q, p.1 ≠ "types") →
      proxyApiRequest_model q reqHeaders oracle m d = (⟨400, [], .text "Missing types"⟩, 0)) ∧
    hasParam (buildApiParams q) "target" = false ∧
    hasParam (buildApiParams q) "callback" = false ∧
    ((q.map Prod.fst).Nodup →
      buildApiParams q = q.filter fun p => !decide (p.1 = "target" ∨ p.1 = "callback")) := by
  refine ⟨?_, hasParam_buildApiParams_stripped q "target" (Or.inl rfl),
    hasParam_buildApiParams_stripped q "callback" (Or.inr rfl),
    buildApiParams_filter_of_nodup q⟩
  intro hnone
  have h := hasParam_buildApiParams_false hnone
  simp [proxyApiRequest_model, h]

/-- Witness for C8 at a concrete query without types. -/
theorem api_missing_types_strips_params_witness :
    proxyApiRequest_model [("source", "netease"), ("id", "123"), ("target", "x")] []
        (fun _ => .resp ⟨200, []⟩) 3 1000 = (⟨400, [], .text "Missing types"⟩, 0) ∧
    buildApiParams [("source", "netease"), ("target", "x"), ("callback", "cb"), ("id", "7")]
      = [("source", "netease"), ("id", "7")] := by
  constructor
  · exact (api_missing_types_strips_params _ [] (fun _ => .resp ⟨200, []⟩) 3 1000).1
      (by decide)
  · have h := (api_missing_types_strips_params
      [("source", "netease"), ("target", "x"), ("callback", "cb"), ("id", "7")] []
      (fun _ => .resp ⟨200, []⟩) 3 1000).2.2.2 (by decide)
    simpa using h

/-! ## Claim C9: Range handling on the audio path -/

theorem find_ci_map_replace (a : HeaderMap) (k v x : String) :
    ((a.map fun p => if lowerStr p.1 = lowerStr k then (k, v) else p).find?
        fun p => lowerStr p.1 = lowerStr x)
      = if lowerStr k = lowerStr x then
          (if a.any (fun p => lowerStr p.1 = lowerStr k) then some (k, v) else none)
        else a.find? fun p => lowerStr p.1 = lowerStr x := by
  induction a with
  | nil =>
    by_cases h : lowerStr k = lowerStr x
    · rw [if_pos h]; rfl
    · rw [if_neg h]; rfl
  | cons q t ih =>
    rw [List.map_cons, List.any_cons]
    by_cases hq : lowerStr q.1 = lowerStr k
    · rw [if_pos hq]
      by_cases hkx : lowerStr k = lowerStr x
      · rw [List.find?_cons_of_pos _ (by simpa using hkx)]
        rw [if_pos hkx, if_pos (by simp [hq])]
      · rw [List.find?_cons_of_neg _ (by simpa using hkx)]
        rw [ih, if_neg hkx, if_neg hkx]
        rw [List.find?_cons_of_neg _ (by
          simpa using fun hc => hkx (hq.symm.trans hc))]
    · rw [if_neg hq]
      by_cases hqx : lowerStr q.1 = lowerStr x
      · rw [List.find?_cons_of_pos _ (by simpa using hqx),
          List.find?_cons_of_pos _ (by simpa using hqx)]
        by_cases hkx : lowerStr k = lowerStr x
        · exact absurd (hqx.trans hkx.symm) hq
        · rw [if_neg hkx]
      · rw [List.find?_cons_of_neg _ (by simpa using hqx), ih]
        by_cases hkx : lowerStr k = lowerStr x
        · rw [if_pos hkx, if_pos hkx, decide_eq_false hq, Bool.false_or]
        · rw [if_neg hkx, if_neg hkx,
            List.find?_cons_of_neg _ (by simpa using hqx)]

theorem reqGet_resSet (a : HeaderMap) (k v x : String) :
    reqGet (resSet a k v) x
      = if lowerStr k = lowerStr x then some v else reqGet a x := by
  unfold resSet reqGet
  split
  · next hpresent =>
    rw [find_ci_map_replace]
    by_cases hkx : lowerStr k = lowerStr x
    · rw [if_pos hkx, if_pos hkx, if_pos hpresent]
      rfl
    · rw [if_neg hkx, if_neg hkx]
  · next habsent =>
    rw [List.find?_append]
    by_cases hkx : lowerStr k = lowerStr x
    · rw [if_pos hkx]
      have hnone : a.find? (fun p => lowerStr p.1 = lowerStr x) = none := by
        rw [List.find?_eq_none]
        intro p hp
        simp only [decide_eq_true_eq]
        intro hpx
        exact habsent (List.any_eq_true.mpr ⟨p, hp, by simp [hpx, hkx]⟩)
      rw [hnone, List.find?_cons_of_pos _ (by simpa using hkx)]
      rfl
    · rw [if_neg hkx]
      rw [List.find?_cons_of_neg _ (by simpa using hkx), List.find?_nil,
        Option.or_none]

theorem reqGet_foldl_resSet (x : String) :
    ∀ (l acc : HeaderMap),
      reqGet (l.foldl (fun a kv => resSet a kv.1 kv.2) acc) x
        = match ciGetLast l x with
          | some v => some v
          | none => reqGet acc x := by
  intro l
  induction l with
  | nil => intro acc; rfl
  | cons kv t ih =>
    intro acc
    rw [List.foldl_cons, ih (resSet acc kv.1 kv.2), reqGet_resSet]
    simp only [ciGetLast]
    cases hC : ciGetLast t x with
    | some v => rfl
    | none =>
      by_cases hc : lowerStr kv.1 = lowerStr x
      · rw [if_pos hc, if_pos hc]
      · rw [if_neg hc, if_neg hc]

theorem reqGet_applyResSet (l : HeaderMap) (x : String) :
    reqGet (applyResSet l) x = ciGetLast l x := by
  unfold applyResSet
  rw [reqGet_foldl_resSet]
  cases ciGetLast l x <;> rfl

theorem ciGetLast_append (l1 l2 : HeaderMap) (x : String) :
    ciGetLast (l1 ++ l2) x
      = match ciGetLast l2 x with
        | some v => some v
        | none => ciGetLast l1 x := by
  induction l1 with
  | nil =>
    rw [List.nil_append]
    cases ciGetLast l2 x <;> rfl
  | cons kv t ih =>
    rw [List.cons_append]
    simp only [ciGetLast]
    rw [ih]
    cases ciGetLast l2 x with
    | some v => rfl
    | none => rfl

theorem mem_objSet {hs : HeaderMap} {k v : String} {p : String × String}
    (h : p ∈ objSet hs k v) : p = (k, v) ∨ p ∈ hs := by
  unfold objSet at h
  split at h
  · obtain ⟨q, hq, hqe⟩ := List.mem_map.mp h
    by_cases hqk : q.1 = k
    · rw [if_pos hqk] at hqe
      exact Or.inl hqe.symm
    · rw [if_neg hqk] at hqe
      exact Or.inr (hqe ▸ hq)
  · rcases List.mem_append.mp h with h1 | h1
    · exact Or.inr h1
    · exact Or.inl (List.mem_singleton.mp h1)

theorem mem_createCorsHeaders {up : HeaderMap} {p : String × String}
    (h : p ∈ createCorsHeaders up) :
    p.1 = "Access-Control-Allow-Origin" ∨ p.1 = "Cache-Control" ∨ ∃ q ∈ up, p.1 = q.1 := by
  unfold createCorsHeaders at h
  suffices haux : ∀ (l acc : HeaderMap), p ∈ l.foldl corsStep acc →
      p ∈ acc ∨ ∃ q ∈ l, p.1 = q.1 by
    rcases haux up _ h with h1 | h1
    · rcases List.mem_cons.mp h1 with h2 | h2
      · exact Or.inl (by rw [h2])
      · rcases List.mem_cons.mp h2 with h3 | h3
        · exact Or.inr (Or.inl (by rw [h3]))
        · cases h3
    · exact Or.inr (Or.inr h1)
  intro l
  induction l with
  | nil => intro acc hm; exact Or.inl hm
  | cons kv t ih =>
    intro acc hm
    rw [List.foldl_cons] at hm
    rcases ih _ hm with h1 | h1
    · unfold corsStep at h1
      split at h1
      · rcases mem_objSet h1 with h2 | h2
        · exact Or.inr ⟨kv, List.mem_cons_self _ _, by rw [h2]⟩
        · exact Or.inl h2
      · exact Or.inl h1
    · obtain ⟨q, hq, hpq⟩ := h1
      exact Or.inr ⟨q, List.mem_cons_of_mem _ hq, hpq⟩

theorem objSet_append_of_absent {hs : HeaderMap} {k v : String}
    (h : objHasKey hs k = false) : objSet hs k v = hs ++ [(k, v)] := by
  unfold objSet
  rw [h]
  rfl

theorem objHasKey_audio_headers_false {up : HeaderMap}
    (hlow : ∀ p ∈ up, lowerStr p.1 = p.1) (ct y : String)
    (hy1 : y ≠ "Access-Control-Allow-Origin") (hy2 : y ≠ "Cache-Control")
    (hy3 : y ≠ "Content-Type") (hy4 : lowerStr y ≠ y) :
    objHasKey (if strTruthy (objGet (createCorsHeaders up) "Content-Type")
      then createCorsHeaders up
      else objSet (createCorsHeaders up) "Content-Type" ct) y = false := by
  have hbase : ∀ p ∈ createCorsHeaders up, p.1 ≠ y := by
    intro p hp
    rcases mem_createCorsHeaders hp with h | h | ⟨q, hq, hpq⟩
    · rw [h]; exact fun hc => hy1 hc.symm
    · rw [h]; exact fun hc => hy2 hc.symm
    · intro hc
      have hl := hlow q hq
      rw [← hpq, hc] at hl
      exact hy4 hl
  rw [← Bool.not_eq_true, objHasKey, List.any_eq_true]
  rintro ⟨p, hp, hpy⟩
  split at hp
  · exact hbase p hp (by simpa using hpy)
  · rcases mem_objSet hp with h2 | h2
    · exact hy3 (((by simpa using hpy : p.1 = y)).symm.trans (by rw [h2]))
    · exact hbase p h2 (by simpa using hpy)

/-- C9 counterexample: with an inbound Range header, the Express response to a
real upstream 404 carries no Accept-Ranges header at all, and the
Pages-function variant does not force Accept-Ranges even on a 200. -/
theorem audio_range_counterexample :
    reqGet (proxyKuwoAudio_express (some ⟨"https:", "music.kuwo.cn", "/x.mp3"⟩)
        [("Range", "bytes=0-100")] (fun _ => .resp ⟨404, []⟩) 1 1000).1.headers
        "Accept-Ranges" = none ∧
    reqGet (proxyKuwoAudio_ts (some ⟨"https:", "music.kuwo.cn", "/x.mp3"⟩) "GET"
        [("Range", "bytes=0-100")]
        (fun _ => .resp ⟨200, [("content-type", "audio/mpeg")]⟩)).1.headers
        "Accept-Ranges" = none :=
  ⟨rfl, rfl⟩

/-- C9 (amended): a nonempty inbound Range header is carried on the outbound
request by every variant; in the Express variants, when the upstream fetch
succeeds with a 2xx status, the response to the caller has Accept-Ranges bytes
and the upstream Content-Range (defaulting to empty when absent); the
Pages-function variant never forces Accept-Ranges.  The lowercase-keys premise
on the upstream headers reflects that response.headers.entries() yields
lowercased names. -/
theorem audio_range_amended :
    (∀ (reqHeaders : HeaderMap) (r0 method : String),
      reqGet reqHeaders "Range" = some r0 → r0 ≠ "" →
      objGet (buildAudioHeadersExpress reqHeaders) "Range" = some r0 ∧
      objGet (buildAudioRequestTS method reqHeaders).headers "Range" = some r0) ∧
    (∀ (t : Option JSURL) (reqHeaders : HeaderMap) (oracle : Nat → FetchOutcome)
        (m d : Nat) (resp : UpstreamResponse),
      normalizeKuwoUrl t ≠ none →
      (fetchWithRetry oracle m d).result = .ok resp →
      200 ≤ resp.status → resp.status < 300 →
      strTruthy (reqGet reqHeaders "Range") = true →
      (∀ p ∈ resp.headers, lowerStr p.1 = p.1) →
      reqGet (proxyKuwoAudio_express t reqHeaders oracle m d).1.headers "Accept-Ranges"
          = some "bytes" ∧
      reqGet (proxyKuwoAudio_express t reqHeaders oracle m d).1.headers "Content-Range"
          = some (jsOr (reqGet resp.headers "Content-Range") "")) := by
  constructor
  · intro reqHeaders r0 method hR hne
    constructor
    · unfold buildAudioHeadersExpress objGet
      rw [hR]
      simp [jsOr, hne]
    · simp only [buildAudioRequestTS, hR]
      rw [if_neg hne]
      unfold objGet
      simp
  · intro t reqHeaders oracle m d resp hn hr h200 h300 hrange hlow
    obtain ⟨u, hu⟩ := Option.ne_none_iff_exists'.mp hn
    have hAR := objHasKey_audio_headers_false hlow "audio/mpeg" "Accept-Ranges"
      (by decide) (by decide) (by decide) (by decide)
    have hCR := objHasKey_audio_headers_false hlow "audio/mpeg" "Content-Range"
      (by decide) (by decide) (by decide) (by decide)
    simp only [proxyKuwoAudio_express, hu, hr]
    rw [if_neg (by omega : ¬(resp.status < 200 ∨ 300 ≤ resp.status)), if_pos hrange]
    rw [objSet_append_of_absent hAR]
    have hCR2 : objHasKey
        ((if strTruthy (objGet (createCorsHeaders resp.headers) "Content-Type")
            then createCorsHeaders resp.headers
            else objSet (createCorsHeaders resp.headers) "Content-Type" "audio/mpeg")
          ++ [("Accept-Ranges", "bytes")]) "Content-Range" = false := by
      unfold objHasKey
      rw [List.any_append]
      have h1 : ((if strTruthy (objGet (createCorsHeaders resp.headers) "Content-Type")
          then createCorsHeaders resp.headers
          else objSet (createCorsHeaders resp.headers) "Content-Type" "audio/mpeg").any
            fun p => p.1 = "Content-Range") = false := hCR
      rw [h1]
      rfl
    rw [objSet_append_of_absent hCR2, List.append_assoc]
    constructor
    · rw [reqGet_applyResSet, ciGetLast_append]
      have hc : ciGetLast
          ([("Accept-Ranges", "bytes")] ++
            [("Content-Range", jsOr (reqGet resp.headers "Content-Range") "")])
          "Accept-Ranges" = some "bytes" := rfl
      rw [hc]
    · rw [reqGet_applyResSet, ciGetLast_append]
      have hc : ciGetLast
          ([("Accept-Ranges", "bytes")] ++
            [("Content-Range", jsOr (reqGet resp.headers "Content-Range") "")])
          "Content-Range" = some (jsOr (reqGet resp.headers "Content-Range") "") := rfl
      rw [hc]

/-- Witness for the amended C9 on a concrete ranged request with a 206. -/
theorem audio_range_amended_witness :
    objGet (buildAudioHeadersExpress [("Range", "bytes=0-100")]) "Range"
      = some "bytes=0-100" ∧
    reqGet (proxyKuwoAudio_express (some ⟨"https:", "music.kuwo.cn", "/w.mp3"⟩)
        [("Range", "bytes=0-100")]
        (fun _ => .resp ⟨206, [("content-range", "bytes 0-100/1000")]⟩) 2 500).1.headers
        "Accept-Ranges" = some "bytes" := by
  constructor
  · exact (audio_range_amended.1 [("Range", "bytes=0-100")] "bytes=0-100" "GET" rfl
      (by decide)).1
  · have h := (audio_range_amended.2 (some ⟨"https:", "music.kuwo.cn", "/w.mp3"⟩)
      [("Range", "bytes=0-100")]
      (fun _ => .resp ⟨206, [("content-range", "bytes 0-100/1000")]⟩) 2 500
      ⟨206, [("content-range", "bytes 0-100/1000")]⟩
      (by decide) rfl (by decide) (by decide) rfl (by decide)).1
    exact h

/-! ## Claim C10: outbound request determined by a fixed header set -/

/-- C10 counterexample: two inbound requests to the Pages-function audio path
that agree on User-Agent, Accept and Range (and everything else) but use
methods GET and HEAD produce different upstream request descriptors, because
the descriptor inherits the method. -/
theorem outbound_request_deps_counterexample :
    buildAudioRequestTS "GET" [("Cookie", "secret")]
        ≠ buildAudioRequestTS "HEAD" [("Cookie", "secret")] ∧
    (buildAudioRequestTS "GET" [("Cookie", "secret")]).headers
        = (buildAudioRequestTS "HEAD" [("Cookie", "secret")]).headers :=
  ⟨by decide, rfl⟩

/-- C10 (amended): the Express outbound headers depend only on the inbound
User-Agent, Accept and Range values and consist of exactly those three names;
the Pages-function descriptor depends only on the inbound User-Agent and Range
values and the request method, and its header names are User-Agent and the
fixed Referer, plus Range when forwarded — so Cookie, Authorization and every
other inbound header are never forwarded by any variant. -/
theorem outbound_request_deps_amended :
    (∀ h1 h2 : HeaderMap,
      reqGet h1 "User-Agent" = reqGet h2 "User-Agent" →
      reqGet h1 "Accept" = reqGet h2 "Accept" →
      reqGet h1 "Range" = reqGet h2 "Range" →
      buildAudioHeadersExpress h1 = buildAudioHeadersExpress h2) ∧
    (∀ h : HeaderMap,
      (buildAudioHeadersExpress h).map Prod.fst = ["User-Agent", "Accept", "Range"]) ∧
    (∀ (method : String) (h1 h2 : HeaderMap),
      reqGet h1 "User-Agent" = reqGet h2 "User-Agent" →
      reqGet h1 "Range" = reqGet h2 "Range" →
      buildAudioRequestTS method h1 = buildAudioRequestTS method h2) ∧
    (∀ (method : String) (h : HeaderMap),
      (buildAudioRequestTS method h).headers.map Prod.fst = ["User-Agent", "Referer"] ∨
      (buildAudioRequestTS method h).headers.map Prod.fst
        = ["User-Agent", "Referer", "Range"]) := by
  refine ⟨?_, ?_, ?_, ?_⟩
  · intro h1 h2 hua hac hra
    unfold buildAudioHeadersExpress
    rw [hua, hac, hra]
  · intro h
    rfl
  · intro method h1 h2 hua hra
    unfold buildAudioRequestTS
    rw [hua, hra]
  · intro method h
    cases hR : reqGet h "Range" with
    | none =>
      left
      simp only [buildAudioRequestTS, hR]
      rfl
    | some r =>
      by_cases hre : r = ""
      · left
        simp only [buildAudioRequestTS, hR]
        rw [if_pos hre]
        rfl
      · right
        simp only [buildAudioRequestTS, hR]
        rw [if_neg hre]
        rfl

/-- Witness for the amended C10: inbound maps differing only in Cookie and
Authorization yield identical outbound Express headers. -/
theorem outbound_request_deps_amended_witness :
    buildAudioHeadersExpress [("Cookie", "a"), ("User-Agent", "UA1")]
      = buildAudioHeadersExpress [("User-Agent", "UA1"), ("Authorization", "Bearer t")] :=
  outbound_request_deps_amended.1 [("Cookie", "a"), ("User-Agent", "UA1")]
    [("User-Agent", "UA1"), ("Authorization", "Bearer t")] rfl rfl rfl

/-- Witness for C1 at concrete hostnames, through the iff itself. -/
theorem isAllowedKuwoHost_iff_specAllowedHost_witness :
    specAllowedHost "music.kuwo.cn" ∧ isAllowedKuwoHost "KUWO.CN" = true :=
  ⟨(isAllowedKuwoHost_iff_specAllowedHost.1 "music.kuwo.cn").mp (by decide),
   isAllowedKuwoHost_iff_specAllowedHost.2.2.1⟩

/-- Witness for C2 on a concrete adversarial upstream header set carrying
Set-Cookie and Server. -/
theorem createCorsHeaders_only_allowed_names_witness :
    ((createCorsHeaders [("Set-Cookie", "sid=1"), ("Server", "nginx"),
        ("content-type", "audio/mpeg")]).all fun p => allowedOutName p.1) = true :=
  (createCorsHeaders_only_allowed_names
    [("Set-Cookie", "sid=1"), ("Server", "nginx"), ("content-type", "audio/mpeg")] none).1

end Solara
